import Mathlib

/-!
Verification of the metric reconciliation and presentation-state engine of
the `met` repository (`src/main.go`, with the repository's earlier iterations
in `src/unnamed/part_000` – `part_002`).

Embedding conventions:
* Go `float64` scalar values are modelled as exact integers (`Int`): the
  reconciliation algorithm only uses addition, subtraction and order
  comparisons, and every concrete value in the specification is an integer.
* Go strings are Lean `String`s; Go's byte-wise lexicographic string
  comparison is modelled by `strLt` below, a character-wise lexicographic
  comparison (UTF-8 byte order coincides with code-point order).
* Go maps used as lookup tables (`metricsIndex`, the label map of
  `passLabelFilters`) are modelled as association lists where an insertion
  conses to the front and lookup takes the first match, which reproduces
  the map's overwrite semantics.
* The Go `for … range` over the `families` map iterates in an unspecified
  order; the batch is therefore modelled as a `List MetricFamily` in an
  arbitrary order, and every general theorem below quantifies over that
  order.
* `m.metricsList[idx]` in Go panics when out of range; the embedding uses
  `List.getD`/`List.set`, which are only ever applied at indices the
  `metricsIndex` lookup produced, where both agree with the Go behaviour.
-/

namespace Met

/-! ## Strings: Go's `strings.Contains` and `<` on strings -/

/-- Character-wise prefix test on character lists (used by `strContains`). -/
def startsWithSeq : List Char → List Char → Bool
  | [], _ => true
  | _ :: _, [] => false
  | p :: ps, c :: cs => p = c && startsWithSeq ps cs

/-- Occurrence of `pat` as a contiguous subsequence; model of Go
`strings.Contains` (an empty pattern is contained in every string). -/
def containsSeq (pat : List Char) : List Char → Bool
  | [] => startsWithSeq pat []
  | c :: rest => startsWithSeq pat (c :: rest) || containsSeq pat rest

/-- Model of Go `strings.Contains s sub`. -/
def strContains (s sub : String) : Bool :=
  containsSeq sub.data s.data

/-- Lexicographic strict comparison of character lists. -/
def ltChars : List Char → List Char → Bool
  | [], [] => false
  | [], _ :: _ => true
  | _ :: _, [] => false
  | a :: as, b :: bs => if a < b then true else if b < a then false else ltChars as bs

/-- Model of Go's `<` on strings (byte-wise lexicographic; UTF-8 byte order
equals code-point order, so the character-wise comparison is faithful). -/
def strLt (a b : String) : Bool :=
  ltChars a.data b.data

/-! ## Label pairs and series-key derivation (`renderLabels`, main.go 413–426) -/

/-- One Prometheus label: a name/value pair (`dto.LabelPair`). -/
structure LabelPair where
  name : String
  value : String
deriving DecidableEq, Repr, Inhabited

/-- The comparator of `renderLabels`'s `sort.Slice` call: label `a` comes no
later than label `b` when `b.name < a.name` fails. -/
def nameLe (a b : LabelPair) : Prop :=
  strLt b.name a.name = false

instance : DecidableRel nameLe :=
  fun a b => instDecidableEqBool (strLt b.name a.name) false

/-- The sorted label sequence of `renderLabels`: `sort.Slice(lbls, by name)`.
For two-element inputs (ties included) the stable insertion sort coincides
with Go's small-slice insertion sort. -/
def sortLabels (lbls : List LabelPair) : List LabelPair :=
  List.insertionSort nameLe lbls

/-- Model of `renderLabels` (main.go 413–426): returns the human-readable
label string and the identity-contributing key string. -/
def renderLabels (lbls : List LabelPair) : String × String :=
  if lbls.isEmpty then ("", "")
  else
    let sorted := sortLabels lbls
    let displayParts := sorted.map (fun lp => lp.name ++ "=\"" ++ lp.value ++ "\"")
    let keyParts := sorted.map (fun lp => lp.name ++ "=\"" ++ lp.value ++ "\"")
    (String.intercalate " " displayParts, String.intercalate "," keyParts)

/-! ## Metric families and raw-value extraction (`getRawValue`, main.go 356–371) -/

/-- The closed tag of Prometheus metric kinds (`dto.MetricType`). -/
inductive MetricType where
  | counter
  | gauge
  | untyped
  | summary
  | histogram
deriving DecidableEq, Repr

/-- One metric instance (`dto.Metric`): a label set plus the kind-specific
scalar fields (the proto getters default to 0, as do the fields here). -/
structure Metric where
  label : List LabelPair
  counterValue : Int := 0
  gaugeValue : Int := 0
  untypedValue : Int := 0
  summarySampleSum : Int := 0
  histogramSampleSum : Int := 0
deriving DecidableEq, Repr

/-- A metric family (`dto.MetricFamily`): name, kind, instances. -/
structure MetricFamily where
  name : String
  mtype : MetricType
  metric : List Metric
deriving DecidableEq, Repr

/-- Model of `getRawValue` (main.go 356–371). The Go `default: return 0`
branch cannot fire on the closed kind tag. -/
def getRawValue (mf : MetricFamily) (pm : Metric) : Int :=
  match mf.mtype with
  | MetricType.counter => pm.counterValue
  | MetricType.gauge => pm.gaugeValue
  | MetricType.untyped => pm.untypedValue
  | MetricType.summary => pm.summarySampleSum
  | MetricType.histogram => pm.histogramSampleSum

/-! ## Per-series state (`metricData`, main.go 44–55) -/

/-- Per-series state (`metricData`). Field defaults are Go zero values. -/
structure MetricData where
  key : String := ""
  name : String := ""
  labels : String := ""
  isCounter : Bool := false
  prevVal : Int := 0
  accumVal : Int := 0
  gaugeVal : Int := 0
  history : List Int := []
  lastDelta : Int := 0
  lastScrapedVal : Int := 0
deriving DecidableEq, Repr, Inhabited

/-- History capacity (`maxHistory`, main.go 84). -/
def maxHistory : Nat := 30

/-- The counter/gauge field update of one located series entry
(main.go 308–326): reset/increment/no-change for counters, passthrough
for gauges. -/
def applyRawCore (md : MetricData) (raw : Int) : MetricData :=
  if md.isCounter then
    let diff := raw - md.prevVal
    let md2 :=
      if diff < 0 then { md with accumVal := md.accumVal + raw, lastDelta := raw }
      else if diff > 0 then { md with accumVal := md.accumVal + diff, lastDelta := diff }
      else md
    { md2 with prevVal := raw, lastScrapedVal := raw }
  else
    { md with gaugeVal := raw, lastDelta := 0, lastScrapedVal := raw }

/-- The per-sample update of one located series entry: main.go 307–335
(the counter/gauge branch `applyRawCore`, then the history append and
front truncation of 328–335). -/
def applyRaw (md : MetricData) (raw : Int) : MetricData :=
  let md1 := applyRawCore md raw
  let curVal := if md1.isCounter then md1.accumVal else md1.gaugeVal
  let history1 := md1.history ++ [curVal]
  let history2 :=
    if history1.length > maxHistory then history1.drop (history1.length - maxHistory)
    else history1
  { md1 with history := history2 }

/-- The displayed current value of a series (`curVal`, main.go 328–331):
the accumulated total for counters, the latest raw value otherwise. -/
def curValOf (md : MetricData) : Int :=
  if md.isCounter then md.accumVal else md.gaugeVal

/-- The suffix of the most recent `n` entries of a list. -/
def lastN {α : Type} (n : Nat) (l : List α) : List α :=
  l.drop (l.length - n)

/-- The sequence of displayed values appended to a series' history along a
sequence of raw updates. -/
def appendedValues (md : MetricData) : List Int → List Int
  | [] => []
  | r :: rs => curValOf (applyRaw md r) :: appendedValues (applyRaw md r) rs

/-! ## Filters (`passNameFilters` main.go 375–394, `passLabelFilters` 396–411) -/

/-- One `--labels name=value` constraint (`labelFilter`, main.go 57–60). -/
structure LabelFilter where
  name : String
  value : String
deriving DecidableEq, Repr

/-- Association-list lookup, first match wins (Go map read). -/
def lookupAssoc {β : Type} : List (String × β) → String → Option β
  | [], _ => none
  | p :: rest, k => if p.1 = k then some p.2 else lookupAssoc rest k

/-- Model of `passNameFilters` (main.go 375–394), over the configured
include/exclude substring lists. -/
def passNameFilters (includes excludes : List String) (metricName : String) : Bool :=
  if includes.length > 0 && !(includes.any fun inc => strContains metricName inc) then false
  else if excludes.any fun exc => strContains metricName exc then false
  else true

/-- The label map built by `passLabelFilters` (main.go 400–403): a Go map
written in iteration order, so a later pair with the same name overwrites an
earlier one (cons to the front + first-match lookup). -/
def buildLabelMap (lbls : List LabelPair) : List (String × String) :=
  lbls.foldl (fun acc lp => (lp.name, lp.value) :: acc) []

/-- Model of `passLabelFilters` (main.go 396–411). -/
def passLabelFilters (labelFilters : List LabelFilter) (lbls : List LabelPair) : Bool :=
  if labelFilters.length = 0 then true
  else labelFilters.all fun lf =>
    match lookupAssoc (buildLabelMap lbls) lf.name with
    | some v => v = lf.value
    | none => false

/-! ## The reconciliation pass (`updateMetrics`, main.go 265–353)

`updateMetrics` is textually the same algorithm in `src/main.go` and in
`src/unnamed/part_002` (both run filters, seed new counters, apply the
per-sample update, and prune stale series); it is factored here over the
fields it reads and writes (`CoreState`), and each file's `model` wrapper
delegates to it. -/

/-- The fields of `model` that `updateMetrics` touches or consults. -/
structure CoreState where
  metricsList : List MetricData := []
  metricsIndex : List (String × Nat) := []
  includes : List String := []
  excludes : List String := []
  labelFilters : List LabelFilter := []
deriving DecidableEq, Repr, Inhabited

/-- The series key string built in the loop body (main.go 273–274). -/
def sampleKey (famName : String) (pm : Metric) : String :=
  famName ++ "\x7b" ++ (renderLabels pm.label).2 ++ "\x7d"

/-- Creation of a brand-new series entry (main.go 286–300): identity fields,
then the counter baseline seed (`prevVal = lastScrapedVal = raw`,
`lastDelta = 0`, `accumVal` left 0) or the gauge seed (`gaugeVal = raw`). -/
def newSeriesData (key name labels : String) (isCounter : Bool) (raw : Int) : MetricData :=
  let md0 : MetricData := { key := key, name := name, labels := labels, isCounter := isCounter }
  if md0.isCounter then
    { md0 with prevVal := raw, lastScrapedVal := raw, lastDelta := 0 }
  else { md0 with gaugeVal := raw }

/-- One iteration of the inner loop of `updateMetrics` (main.go 272–339):
filter, locate-or-create (276–305), per-sample update (307–335), write-back
and `seen` insertion (337–338). -/
def processSample (s : CoreState) (seen : List String) (mf : MetricFamily) (pm : Metric) :
    CoreState × List String :=
  let lbl := renderLabels pm.label
  let key := mf.name ++ "\x7b" ++ lbl.2 ++ "\x7d"
  if !(passNameFilters s.includes s.excludes mf.name) then (s, seen)
  else if !(passLabelFilters s.labelFilters pm.label) then (s, seen)
  else
    let raw := getRawValue mf pm
    let si : CoreState × Nat :=
      match lookupAssoc s.metricsIndex key with
      | some idx => (s, idx)
      | none =>
          let md1 := newSeriesData key mf.name lbl.1 (mf.mtype == MetricType.counter) raw
          let newList := s.metricsList ++ [md1]
          ({ s with metricsList := newList,
                    metricsIndex := (key, newList.length - 1) :: s.metricsIndex },
           newList.length - 1)
    let s1 := si.1
    let idx := si.2
    let md := s1.metricsList.getD idx default
    let md2 := applyRaw md (getRawValue mf pm)
    ({ s1 with metricsList := s1.metricsList.set idx md2 }, key :: seen)

/-- The inner loop over one family's instances (main.go 272). -/
def runMetrics (mf : MetricFamily) (acc : CoreState × List String) : CoreState × List String :=
  mf.metric.foldl (fun a pm => processSample a.1 a.2 mf pm) acc

/-- The outer loop over the batch's families (main.go 271). -/
def runFamilies (families : List MetricFamily) (acc : CoreState × List String) :
    CoreState × List String :=
  families.foldl (fun a mf => runMetrics mf a) acc

/-- The staleness-collection rebuild (main.go 342–349): a single pass keeping
entries whose key was seen, assigning each the next position. -/
def rebuild (list : List MetricData) (seen : List String) :
    List MetricData × List (String × Nat) :=
  list.foldl
    (fun acc md =>
      if md.key ∈ seen then (acc.1 ++ [md], (md.key, acc.1.length) :: acc.2) else acc)
    ([], [])

/-- Model of `updateMetrics` (main.go 265–353) over the core fields. The Go
`if m.metricsIndex == nil` initialisation is a no-op here (the empty
association list already models an empty map). -/
def updateMetricsCore (s : CoreState) (families : List MetricFamily) : CoreState :=
  let r := runFamilies families (s, [])
  let nl := rebuild r.1.metricsList r.2
  { r.1 with metricsList := nl.1, metricsIndex := nl.2 }

/-- Consistency of the series table with its key→index lookup: the lookup
answers `i` for `k` exactly when position `i` of the list carries key `k`
(this also forces the keys to be pairwise distinct). -/
def consistentIndex (list : List MetricData) (index : List (String × Nat)) : Prop :=
  ∀ (k : String) (i : Nat),
    lookupAssoc index k = some i ↔ (list.map MetricData.key)[i]? = some k

/-- The keys of the samples of a batch that pass the configured filters, in
iteration order. -/
def touchedKeys (includes excludes : List String) (labelFilters : List LabelFilter)
    (families : List MetricFamily) : List String :=
  families.flatMap fun mf =>
    (mf.metric.filter fun pm =>
        passNameFilters includes excludes mf.name
          && passLabelFilters labelFilters pm.label).map
      fun pm => sampleKey mf.name pm

/-- The invariant carried through the per-sample processing phase of a
reconciliation pass starting from core state `base`: the filter
configuration is untouched, the table and index stay consistent, the key
sequence only grows at the end by keys recorded in `seen`, and every key in
`seen` is present in the table. -/
def StateInv (base : CoreState) (a : CoreState × List String) : Prop :=
  a.1.includes = base.includes
  ∧ a.1.excludes = base.excludes
  ∧ a.1.labelFilters = base.labelFilters
  ∧ consistentIndex a.1.metricsList a.1.metricsIndex
  ∧ (∃ t, a.1.metricsList.map MetricData.key
        = base.metricsList.map MetricData.key ++ t ∧ ∀ k ∈ t, k ∈ a.2)
  ∧ (∀ k ∈ a.2, k ∈ a.1.metricsList.map MetricData.key)

/-! ## The Elm-style model and `Update` (main.go 62–131) -/

/-- Model of the `model` struct of `src/main.go` (62–76). `err` is the
recorded scrape error message (`nil` = `none`); `interval` is an opaque
duration value. -/
structure Model where
  endpoint : String := ""
  interval : Nat := 0
  initDone : Bool := false
  metricsList : List MetricData := []
  metricsIndex : List (String × Nat) := []
  err : Option String := none
  quit : Bool := false
  selected : Int := 0
  includes : List String := []
  excludes : List String := []
  labelFilters : List LabelFilter := []
  showGraph : Bool := false
deriving DecidableEq, Repr, Inhabited

/-- The core-field projection of a `Model`. -/
def Model.core (m : Model) : CoreState :=
  { metricsList := m.metricsList, metricsIndex := m.metricsIndex,
    includes := m.includes, excludes := m.excludes, labelFilters := m.labelFilters }

/-- `updateMetrics` of `src/main.go`, on the full model. -/
def updateMetrics (m : Model) (families : List MetricFamily) : Model :=
  let s := updateMetricsCore m.core families
  { m with metricsList := s.metricsList, metricsIndex := s.metricsIndex }

/-- The comparator of the one-time stabilising sort (main.go 105–110):
by name, ties by label string. -/
def metricLessB (a b : MetricData) : Bool :=
  if a.name = b.name then strLt a.labels b.labels else strLt a.name b.name

/-- `metricLessB` as a relation, for `List.insertionSort`. -/
def metricLess (a b : MetricData) : Prop :=
  metricLessB a b = true

instance : DecidableRel metricLess :=
  fun a b => instDecidableEqBool (metricLessB a b) true

/-- The one-time stabilising sort applied after the first successful batch. -/
def sortMetrics (l : List MetricData) : List MetricData :=
  List.insertionSort metricLess l

/-- Messages consumed by `Update` (`tickMsg`, `metricsMsg`, `tea.KeyMsg`).
A `metricsMsg` carries the parsed batch and the scrape error (`none` = nil);
key messages carry `msg.String()`. -/
inductive Msg where
  | tick
  | metrics (families : List MetricFamily) (err : Option String)
  | keypress (k : String)
deriving DecidableEq, Repr

/-- Commands returned by `Update` (`tea.Cmd` values the code produces). -/
inductive Cmd where
  | fetchMetrics (endpoint : String)
  | tick (interval : Nat)
  | quitCmd
  | noCmd
deriving DecidableEq, Repr

/-- Model of `Update` (main.go 93–131). -/
def update (m : Model) (msg : Msg) : Model × Cmd :=
  match msg with
  | Msg.tick => (m, Cmd.fetchMetrics m.endpoint)
  | Msg.metrics fams e =>
      match e with
      | some errv => ({ m with err := some errv }, Cmd.tick m.interval)
      | none =>
          let newM := updateMetrics m fams
          let newM1 :=
            if !newM.initDone then
              { newM with metricsList := sortMetrics newM.metricsList, initDone := true }
            else newM
          (newM1, Cmd.tick newM1.interval)
  | Msg.keypress k =>
      if k = "ctrl+c" ∨ k = "q" then ({ m with quit := true }, Cmd.quitCmd)
      else if k = "up" ∨ k = "k" then
        (if 0 < m.selected then { m with selected := m.selected - 1 } else m, Cmd.noCmd)
      else if k = "down" ∨ k = "j" then
        (if m.selected < (m.metricsList.length : Int) - 1 then
          { m with selected := m.selected + 1 }
         else m, Cmd.noCmd)
      else (m, Cmd.noCmd)

/-! ## The view (`View`, main.go 133–229)

String formatting of float values and the box-drawing table are external
rendering; the view is modelled as the data it hands to the renderer:
which branch of `View` fires and, for the table, the row contents. -/

/-- The graph pane (`renderGraph`, main.go 213–229): `none` models the empty
string returned on an out-of-range selection. -/
inductive GraphFrame where
  | noData
  | plot (history : List Int) (title : String)
deriving DecidableEq, Repr

/-- One table row of `renderList` (main.go 176–206): cursor marker, key,
displayed value, increment column (`none` = "--"), total column. -/
structure Row where
  cursor : Bool
  key : String
  value : Int
  incDiff : Option Int
  totalDiff : Option Int
deriving DecidableEq, Repr

/-- The frame `View` (main.go 133–159) produces. -/
inductive Frame where
  | blank
  | errorFrame (message : String)
  | noMetrics (endpoint : String) (interval : Nat)
  | listFrame (rows : List Row) (graph : Option GraphFrame)
deriving DecidableEq, Repr

/-- The row built for entry `i` (main.go 176–206). -/
def rowOf (selected : Int) (i : Nat) (md : MetricData) : Row :=
  { cursor := (i : Int) == selected,
    key := md.key,
    value := if md.isCounter then md.lastScrapedVal else md.gaugeVal,
    incDiff := if md.isCounter then some md.lastDelta else none,
    totalDiff := if md.isCounter then some md.accumVal else none }

/-- Model of `renderGraph` (main.go 213–229). -/
def renderGraph (selected : Int) (list : List MetricData) : Option GraphFrame :=
  if selected < 0 ∨ (list.length : Int) ≤ selected then none
  else
    let md := list.getD selected.toNat default
    if md.history.isEmpty then some GraphFrame.noData
    else some (GraphFrame.plot md.history (md.name ++ "\x7b" ++ md.labels ++ "\x7d"))

/-- Model of `View` (main.go 133–159). -/
def view (m : Model) : Frame :=
  if m.quit then Frame.blank
  else
    match m.err with
    | some e => Frame.errorFrame e
    | none =>
        if m.metricsList.length = 0 then Frame.noMetrics m.endpoint m.interval
        else
          Frame.listFrame
            (m.metricsList.mapIdx (fun i md => rowOf m.selected i md))
            (if m.showGraph then renderGraph m.selected m.metricsList else none)

/-! ## The paginated variant (`src/unnamed/part_002`)

`part_002` is the iteration with pagination: its `model` adds `pageStart`
and `pageSize`, its `Update` clamps the selection after a reconciliation
pass (116–120) and maintains the page window (`enforcePageBounds`,
168–178, and the `pgup`/`pgdn` keys). Its `updateMetrics`,
`passNameFilters`, `passLabelFilters`, `getRawValue` and `renderLabels`
are the same code as `src/main.go`'s, so the `CoreState` functions above
are shared. -/

/-- Model of the `model` struct of `src/unnamed/part_002` (61–78). -/
structure ModelB where
  endpoint : String := ""
  interval : Nat := 0
  initDone : Bool := false
  metricsList : List MetricData := []
  metricsIndex : List (String × Nat) := []
  err : Option String := none
  quit : Bool := false
  includes : List String := []
  excludes : List String := []
  labelFilters : List LabelFilter := []
  showGraph : Bool := false
  selected : Int := 0
  pageStart : Int := 0
  pageSize : Int := 0
deriving DecidableEq, Repr, Inhabited

/-- The core-field projection of a `ModelB`. -/
def ModelB.core (m : ModelB) : CoreState :=
  { metricsList := m.metricsList, metricsIndex := m.metricsIndex,
    includes := m.includes, excludes := m.excludes, labelFilters := m.labelFilters }

/-- `updateMetrics` of `src/unnamed/part_002` (321–402), on its model. -/
def updateMetricsB (m : ModelB) (families : List MetricFamily) : ModelB :=
  let s := updateMetricsCore m.core families
  { m with metricsList := s.metricsList, metricsIndex := s.metricsIndex }

/-- Model of `enforcePageBounds` (part_002 168–178). -/
def enforcePageBounds (m : ModelB) : ModelB :=
  let pageEnd := m.pageStart + m.pageSize - 1
  let m1 :=
    if m.selected < m.pageStart then { m with pageStart := m.selected }
    else if pageEnd < m.selected then { m with pageStart := m.selected - (m.pageSize - 1) }
    else m
  if m1.pageStart < 0 then { m1 with pageStart := 0 } else m1

/-- The one-time stabilising sort statement of part_002's `Update`
(107–115): sort and mark initialised on the first successful batch. -/
def initialSortStepB (m : ModelB) : ModelB :=
  if !m.initDone then
    { m with metricsList := sortMetrics m.metricsList, initDone := true }
  else m

/-- The post-reconciliation selection clamp of part_002's `Update`
(116–119): pull `selected` back to `length − 1` when the list shrank
past it. -/
def clampSelection (m : ModelB) : ModelB :=
  if (m.metricsList.length : Int) ≤ m.selected then
    { m with selected := (m.metricsList.length : Int) - 1 }
  else m

/-- Model of `Update` of `src/unnamed/part_002` (95–165), including the
post-reconciliation selection clamp (116–120) and the pagination keys. -/
def updateB (m : ModelB) (msg : Msg) : ModelB × Cmd :=
  match msg with
  | Msg.tick => (m, Cmd.fetchMetrics m.endpoint)
  | Msg.metrics fams e =>
      match e with
      | some errv => ({ m with err := some errv }, Cmd.tick m.interval)
      | none =>
          let newM3 := enforcePageBounds (clampSelection (initialSortStepB (updateMetricsB m fams)))
          (newM3, Cmd.tick newM3.interval)
  | Msg.keypress k =>
      if k = "ctrl+c" ∨ k = "q" then ({ m with quit := true }, Cmd.quitCmd)
      else if k = "up" ∨ k = "k" then
        (if 0 < m.selected then enforcePageBounds { m with selected := m.selected - 1 }
         else m, Cmd.noCmd)
      else if k = "down" ∨ k = "j" then
        (if m.selected < (m.metricsList.length : Int) - 1 then
          enforcePageBounds { m with selected := m.selected + 1 }
         else m, Cmd.noCmd)
      else if k = "pgup" then
        let m1 := { m with pageStart := m.pageStart - m.pageSize }
        let m2 := if m1.pageStart < 0 then { m1 with pageStart := 0 } else m1
        let m3 := if m2.selected < m2.pageStart then { m2 with selected := m2.pageStart } else m2
        (m3, Cmd.noCmd)
      else if k = "pgdn" then
        let m1 := { m with pageStart := m.pageStart + m.pageSize }
        let maxStart0 := (m1.metricsList.length : Int) - m1.pageSize
        let maxStart := if maxStart0 < 0 then 0 else maxStart0
        let m2 := if maxStart < m1.pageStart then { m1 with pageStart := maxStart } else m1
        let pageEnd := m2.pageStart + m2.pageSize - 1
        let m3 := if pageEnd < m2.selected then { m2 with selected := pageEnd } else m2
        (m3, Cmd.noCmd)
      else (m, Cmd.noCmd)

/-! ## Concrete inputs used by the claim theorems -/

/-- A one-instance counter family with no labels and the given raw value. -/
def counterFamC (nm : String) (v : Int) : MetricFamily :=
  { name := nm, mtype := MetricType.counter, metric := [{ label := [], counterValue := v }] }

/-- A bare counter series entry with the given name and no labels. -/
def entryFor (nm : String) : MetricData :=
  { key := nm ++ "\x7b\x7d", name := nm, labels := "", isCounter := true }

/-- Five series entries a–e. -/
def fiveList : List MetricData :=
  [entryFor "a", entryFor "b", entryFor "c", entryFor "d", entryFor "e"]

/-- The index consistent with `fiveList`. -/
def fiveIdx : List (String × Nat) :=
  [("a\x7b\x7d", 0), ("b\x7b\x7d", 1), ("c\x7b\x7d", 2), ("d\x7b\x7d", 3), ("e\x7b\x7d", 4)]

/-- A batch touching only the first three of the five series. -/
def batchABC : List MetricFamily :=
  [counterFamC "a" 1, counterFamC "b" 1, counterFamC "c" 1]

/-- The model for the selection-clamp example: five entries, selection at 4. -/
def mC3 : Model :=
  { initDone := true, metricsList := fiveList, metricsIndex := fiveIdx, selected := 4 }

/-- The part_002 model for the selection-clamp example. -/
def mC3B : ModelB :=
  { initDone := true, metricsList := fiveList, metricsIndex := fiveIdx,
    selected := 4, pageSize := 15 }

/-- Scrape states of one counter for the C2 example: raws 10, 15, 15. -/
def mC2a : Model := updateMetrics {} [counterFamC "c" 10]

def mC2b : Model := updateMetrics mC2a [counterFamC "c" 15]

def mC2c : Model := updateMetrics mC2b [counterFamC "c" 15]

/-- Scrape states of one counter for the C4 example: raws 5 then −3. -/
def mC4a : Model := updateMetrics {} [counterFamC "c" 5]

def mC4b : Model := updateMetrics mC4a [counterFamC "c" (-3)]

/-- Scrape states of one counter for the C1 example: raws 10, 15, 4, 9. -/
def mC1a : Model := updateMetrics {} [counterFamC "c" 10]

def mC1b : Model := updateMetrics mC1a [counterFamC "c" 15]

def mC1c : Model := updateMetrics mC1b [counterFamC "c" 4]

def mC1d : Model := updateMetrics mC1c [counterFamC "c" 9]

/-- Iterated per-series updates with a list of raw values. -/
def runRaws (md : MetricData) (raws : List Int) : MetricData :=
  raws.foldl applyRaw md

/-- Two orderings of the same multiset of labels with a duplicated name. -/
def lA : List LabelPair := [{ name := "a", value := "2" }, { name := "a", value := "1" }]

def lB : List LabelPair := [{ name := "a", value := "1" }, { name := "a", value := "2" }]

/-! ## Theorems -/

/-- Claim C1: counter reconciliation follows baseline-then-accumulate.
First sight of a key seeds `prevVal = lastScrapedVal = raw`, `lastDelta = 0`,
`accumVal = 0` (history records the baseline 0, no visible jump); a
subsequent update with `diff = raw − prevVal` adds `diff` to `accumVal`
when `diff > 0` and adds the new `raw` itself when `diff < 0`; scraping the
raw sequence [10, 15, 4, 9] yields the accumulated sequence [0, 5, 9, 14]. -/
theorem C1_counter_reconciliation :
    (∀ raw : Int,
      (updateMetrics {} [counterFamC "c" raw]).metricsList =
        [{ key := "c\x7b\x7d", name := "c", labels := "", isCounter := true,
           prevVal := raw, accumVal := 0, gaugeVal := 0, history := [0],
           lastDelta := 0, lastScrapedVal := raw }])
    ∧ (∀ (md : MetricData) (raw : Int), md.isCounter = true →
        (0 < raw - md.prevVal →
          (applyRaw md raw).accumVal = md.accumVal + (raw - md.prevVal))
        ∧ (raw - md.prevVal < 0 → (applyRaw md raw).accumVal = md.accumVal + raw))
    ∧ ((mC1a.metricsList.getD 0 default).accumVal = 0
        ∧ (mC1b.metricsList.getD 0 default).accumVal = 5
        ∧ (mC1c.metricsList.getD 0 default).accumVal = 9
        ∧ (mC1d.metricsList.getD 0 default).accumVal = 14
        ∧ (mC1d.metricsList.getD 0 default).history = [0, 5, 9, 14]) := by
  refine ⟨?_, ?_, by decide⟩
  · intro raw
    simp [updateMetrics, updateMetricsCore, runFamilies, runMetrics, processSample, newSeriesData,
      Model.core, counterFamC, renderLabels, sortLabels, passNameFilters, passLabelFilters,
      lookupAssoc, getRawValue, applyRaw, applyRawCore, rebuild, maxHistory]
  · intro md raw hc
    constructor
    · intro hpos
      have hneg : ¬(raw - md.prevVal < 0) := by omega
      simp [applyRaw, applyRawCore, hc, hneg, hpos]
    · intro hneg
      simp [applyRaw, applyRawCore, hc, hneg]

/-- Witness for C1 at a concrete input: a counter at `prevVal = 10`,
`accumVal = 0` updated with raw 15 accumulates the positive diff 5. -/
theorem C1_counter_reconciliation_witness :
    (applyRaw { isCounter := true, prevVal := 10, accumVal := 0 } 15).accumVal
      = ({ isCounter := true, prevVal := 10, accumVal := 0 } : MetricData).accumVal
          + (15 - ({ isCounter := true, prevVal := 10, accumVal := 0 } : MetricData).prevVal) :=
  (C1_counter_reconciliation.2.1 { isCounter := true, prevVal := 10, accumVal := 0 } 15 rfl).1
    (by decide)

/-- Counterexample to claim C2 as stated: after raws 10, 15 the stored
`prevVal` is 15 and `lastDelta` is 5; a further update with raw 15
(`diff == 0`) leaves `lastDelta` at 5 — it is not set to 0. -/
theorem C2_zero_diff_counterexample :
    (mC2b.metricsList.getD 0 default).prevVal = 15
    ∧ (mC2b.metricsList.getD 0 default).lastDelta = 5
    ∧ (mC2c.metricsList.getD 0 default).lastDelta = 5
    ∧ ¬(mC2c.metricsList.getD 0 default).lastDelta = 0 := by
  decide

/-- Claim C2 amended: on an update whose raw value equals the stored
`prevVal` (`diff == 0`), the code retains the previous `lastDelta` (and
leaves `accumVal` unchanged), updating only `prevVal` and
`lastScrapedVal`; the zero-delta tick does not reset the displayed delta. -/
theorem C2_zero_diff_retains_lastDelta (md : MetricData) (raw : Int)
    (hc : md.isCounter = true) (h : raw = md.prevVal) :
    (applyRaw md raw).lastDelta = md.lastDelta
    ∧ (applyRaw md raw).accumVal = md.accumVal
    ∧ (applyRaw md raw).prevVal = raw
    ∧ (applyRaw md raw).lastScrapedVal = raw := by
  subst h
  simp [applyRaw, applyRawCore, hc]

/-- Witness for the amended C2 at a concrete input. -/
theorem C2_zero_diff_retains_lastDelta_witness :
    (applyRaw { isCounter := true, prevVal := 5, lastDelta := 3, accumVal := 7 } 5).lastDelta
      = ({ isCounter := true, prevVal := 5, lastDelta := 3, accumVal := 7 } : MetricData).lastDelta :=
  (C2_zero_diff_retains_lastDelta
    { isCounter := true, prevVal := 5, lastDelta := 3, accumVal := 7 } 5 rfl rfl).1

/-- One update with a nonnegative raw value never decreases `accumVal`. -/
theorem applyRaw_accum_mono (md : MetricData) (raw : Int) (h : 0 ≤ raw) :
    md.accumVal ≤ (applyRaw md raw).accumVal := by
  by_cases hc : md.isCounter
  · by_cases h1 : raw - md.prevVal < 0
    · simp [applyRaw, applyRawCore, hc, h1]
      omega
    · by_cases h2 : 0 < raw - md.prevVal
      · simp [applyRaw, applyRawCore, hc, h1, h2]
        omega
      · simp [applyRaw, applyRawCore, hc, h1, h2]
  · simp [applyRaw, applyRawCore, hc]

/-- Along any sequence of nonnegative raw values, `accumVal` is monotone. -/
theorem runRaws_accum_mono (md : MetricData) (raws : List Int)
    (h : ∀ r ∈ raws, 0 ≤ r) : md.accumVal ≤ (runRaws md raws).accumVal := by
  induction raws generalizing md with
  | nil => simp [runRaws]
  | cons r rs ih =>
      have h1 : 0 ≤ r := h r (List.mem_cons_self r rs)
      have h2 : ∀ x ∈ rs, 0 ≤ x := fun x hx => h x (List.mem_cons_of_mem r hx)
      have step := applyRaw_accum_mono md r h1
      have rest := ih (applyRaw md r) h2
      have hrun : runRaws md (r :: rs) = runRaws (applyRaw md r) rs := rfl
      rw [hrun]
      exact le_trans step rest

/-- Counterexample to claim C4 as stated: with arbitrary finite raw values
the accumulated field can decrease — raws 5 then −3 drive `accumVal`
from 0 to −3 (the reset branch adds the new raw value, which is negative). -/
theorem C4_negative_raw_counterexample :
    (mC4a.metricsList.getD 0 default).accumVal = 0
    ∧ (mC4b.metricsList.getD 0 default).accumVal = -3
    ∧ (mC4b.metricsList.getD 0 default).accumVal
        < (mC4a.metricsList.getD 0 default).accumVal := by
  decide

/-- Claim C4 amended: for nonnegative raw values the accumulated field never
decreases; each update leaves it unchanged (`diff == 0`), adds the positive
diff (`diff > 0`), or adds the new raw value itself (`diff < 0`, reset), and
accumulation is monotone along any sequence of nonnegative raws. -/
theorem C4_accum_monotone_nonneg (md : MetricData) (raw : Int) (h : 0 ≤ raw) :
    md.accumVal ≤ (applyRaw md raw).accumVal
    ∧ (md.isCounter = true → raw - md.prevVal = 0 →
        (applyRaw md raw).accumVal = md.accumVal)
    ∧ (md.isCounter = true → 0 < raw - md.prevVal →
        (applyRaw md raw).accumVal = md.accumVal + (raw - md.prevVal))
    ∧ (md.isCounter = true → raw - md.prevVal < 0 →
        (applyRaw md raw).accumVal = md.accumVal + raw)
    ∧ (∀ raws : List Int, (∀ r ∈ raws, 0 ≤ r) →
        md.accumVal ≤ (runRaws md raws).accumVal) := by
  refine ⟨applyRaw_accum_mono md raw h, ?_, ?_, ?_,
    fun raws hall => runRaws_accum_mono md raws hall⟩
  · intro hc h0
    simp [applyRaw, applyRawCore, hc, h0]
  · intro hc hpos
    have hneg : ¬(raw - md.prevVal < 0) := by omega
    simp [applyRaw, applyRawCore, hc, hneg, hpos]
  · intro hc hneg
    simp [applyRaw, applyRawCore, hc, hneg]

/-- Witness for the amended C4 at a concrete input. -/
theorem C4_accum_monotone_nonneg_witness :
    (0 : Int) ≤ 2
    ∧ ({ isCounter := true, prevVal := 9, accumVal := 6 } : MetricData).accumVal
        ≤ (applyRaw { isCounter := true, prevVal := 9, accumVal := 6 } 2).accumVal :=
  ⟨by decide, (C4_accum_monotone_nonneg { isCounter := true, prevVal := 9, accumVal := 6 } 2
    (by decide)).1⟩

/-- Claim C9: a failed scrape tick records the error, leaves every other
model field (series list, index, selection, per-series state) unchanged,
schedules the next tick, and the view then renders the error frame. -/
theorem C9_error_preserves_state (m : Model) (fams : List MetricFamily) (e : String) :
    update m (Msg.metrics fams (some e)) = ({ m with err := some e }, Cmd.tick m.interval)
    ∧ view { m with err := some e, quit := false } = Frame.errorFrame e :=
  ⟨rfl, rfl⟩

/-- Claim C10: no step ever clears a recorded error — a successful metrics
update, a tick, and any key press all leave `err` unchanged (it is only
assigned on a failed tick), and while `err` is set (and the session not
quit) the view renders the error frame. -/
theorem C10_error_sticky (m : Model) (fams : List MetricFamily) (k : String) (e : String) :
    (update m (Msg.metrics fams none)).1.err = m.err
    ∧ (update m Msg.tick).1.err = m.err
    ∧ (update m (Msg.keypress k)).1.err = m.err
    ∧ view { m with err := some e, quit := false } = Frame.errorFrame e := by
  refine ⟨?_, rfl, ?_, rfl⟩
  · by_cases h : m.initDone <;> simp [update, updateMetrics, h]
  · simp only [update]
    split
    · rfl
    · split
      · split <;> rfl
      · split
        · split <;> rfl
        · rfl

/-- `enforcePageBounds` moves only the page window, never the selection. -/
theorem enforcePageBounds_selected (m : ModelB) :
    (enforcePageBounds m).selected = m.selected := by
  unfold enforcePageBounds
  dsimp only
  repeat' split
  all_goals rfl

/-- `enforcePageBounds` leaves the series list unchanged. -/
theorem enforcePageBounds_metricsList (m : ModelB) :
    (enforcePageBounds m).metricsList = m.metricsList := by
  unfold enforcePageBounds
  dsimp only
  repeat' split
  all_goals rfl

/-- The initial-sort statement never moves the selection. -/
theorem initialSortStepB_selected (m : ModelB) :
    (initialSortStepB m).selected = m.selected := by
  unfold initialSortStepB
  split <;> rfl

/-- Counterexample to claim C3 as stated, on the final variant
(`src/main.go`): a reconciliation pass that shrinks the five-entry list to
three leaves the selection at 4, outside `[0, 2]` — `Update` of `main.go`
has no clamp. -/
theorem C3_no_clamp_counterexample :
    mC3.metricsList.length = 5 ∧ mC3.selected = 4
    ∧ (update mC3 (Msg.metrics batchABC none)).1.metricsList.length = 3
    ∧ (update mC3 (Msg.metrics batchABC none)).1.selected = 4
    ∧ ¬((update mC3 (Msg.metrics batchABC none)).1.selected
          < ((update mC3 (Msg.metrics batchABC none)).1.metricsList.length : Int)) := by
  decide

/-- Claim C3 amended: the post-shrink selection clamp exists only in the
`part_002` variant, whose `Update` sets `selected` to `length − 1` when
`selected ≥ length`; there, after any successful reconciliation pass a
previously nonnegative selection ends inside `[0, length−1]` whenever the
resulting list is nonempty, and the 5-element, selection-4, remove-2
example ends with selection 2. -/
theorem C3_clamp_part002 :
    (∀ (m : ModelB) (fams : List MetricFamily),
      0 ≤ m.selected →
      0 < (updateB m (Msg.metrics fams none)).1.metricsList.length →
      0 ≤ (updateB m (Msg.metrics fams none)).1.selected
      ∧ (updateB m (Msg.metrics fams none)).1.selected
          < ((updateB m (Msg.metrics fams none)).1.metricsList.length : Int))
    ∧ (updateB mC3B (Msg.metrics batchABC none)).1.selected = 2 := by
  constructor
  · intro m fams h0 hlen
    have e : (updateB m (Msg.metrics fams none)).1
        = enforcePageBounds (clampSelection (initialSortStepB (updateMetricsB m fams))) := rfl
    rw [e] at hlen ⊢
    rw [enforcePageBounds_metricsList] at hlen
    rw [enforcePageBounds_selected, enforcePageBounds_metricsList]
    set v := initialSortStepB (updateMetricsB m fams) with hv
    have hvsel : v.selected = m.selected := by
      rw [hv, initialSortStepB_selected]
      rfl
    by_cases hc : (v.metricsList.length : Int) ≤ v.selected
    · unfold clampSelection at hlen ⊢
      rw [if_pos hc] at hlen ⊢
      dsimp only at hlen ⊢
      omega
    · unfold clampSelection at hlen ⊢
      rw [if_neg hc] at hlen ⊢
      omega
  · decide

/-- Witness for the amended C3 at a concrete input. -/
theorem C3_clamp_part002_witness :
    0 ≤ mC3B.selected
    ∧ 0 < (updateB mC3B (Msg.metrics batchABC none)).1.metricsList.length
    ∧ (0 ≤ (updateB mC3B (Msg.metrics batchABC none)).1.selected
      ∧ (updateB mC3B (Msg.metrics batchABC none)).1.selected
          < ((updateB mC3B (Msg.metrics batchABC none)).1.metricsList.length : Int)) :=
  ⟨by decide, by decide, C3_clamp_part002.1 mC3B batchABC (by decide) (by decide)⟩

/-- The counter/gauge field update never touches the history. -/
theorem applyRawCore_history (md : MetricData) (raw : Int) :
    (applyRawCore md raw).history = md.history := by
  unfold applyRawCore
  dsimp only
  repeat' split
  all_goals rfl

/-- The displayed value after a full per-sample update equals the one after
its field-update stage (the history append does not change it). -/
theorem curValOf_applyRaw (md : MetricData) (raw : Int) :
    curValOf (applyRaw md raw) = curValOf (applyRawCore md raw) := rfl

/-- The append-then-truncate step of main.go 332–335 keeps exactly the most
recent `n` entries. -/
theorem truncate_eq_lastN {α : Type} (n : Nat) (l : List α) :
    (if l.length > n then l.drop (l.length - n) else l) = lastN n l := by
  unfold lastN
  by_cases h : l.length > n
  · rw [if_pos h]
  · rw [if_neg h]
    have h0 : l.length - n = 0 := by omega
    rw [h0, List.drop_zero]

/-- `lastN` through reversal. -/
theorem lastN_eq_reverse_take {α : Type} (n : Nat) (l : List α) :
    lastN n l = (l.reverse.take n).reverse := by
  unfold lastN
  rw [List.reverse_take, List.reverse_reverse, List.length_reverse]

/-- Truncating a prefix that was already truncated changes nothing. -/
theorem lastN_append_absorb {α : Type} (n : Nat) (X A : List α) :
    lastN n (lastN n X ++ A) = lastN n (X ++ A) := by
  simp only [lastN_eq_reverse_take, List.reverse_append, List.reverse_reverse]
  congr 1
  rw [List.take_append_eq_append_take, List.take_append_eq_append_take, List.take_take]
  congr 1
  congr 1
  omega

/-- `lastN n` never keeps more than `n` entries. -/
theorem lastN_length_le {α : Type} (n : Nat) (l : List α) :
    (lastN n l).length ≤ n := by
  unfold lastN
  rw [List.length_drop]
  omega

/-- One per-sample update leaves the history equal to the most recent
`maxHistory` of the values appended so far. -/
theorem applyRaw_history (md : MetricData) (raw : Int) :
    (applyRaw md raw).history
      = lastN maxHistory (md.history ++ [curValOf (applyRaw md raw)]) := by
  have h1 : (applyRaw md raw).history =
      (if ((applyRawCore md raw).history ++ [curValOf (applyRawCore md raw)]).length > maxHistory
       then ((applyRawCore md raw).history ++ [curValOf (applyRawCore md raw)]).drop
              (((applyRawCore md raw).history ++ [curValOf (applyRawCore md raw)]).length - maxHistory)
       else (applyRawCore md raw).history ++ [curValOf (applyRawCore md raw)]) := rfl
  rw [curValOf_applyRaw, h1, truncate_eq_lastN, applyRawCore_history]

/-- Claim C6: after every update the history has at most `N = 30` entries,
the oldest entries are dropped first, and the retained history is exactly
the most recent 30 appended displayed values (accumulated for counters,
the current value otherwise). -/
theorem C6_history_bound (md : MetricData) (raws : List Int)
    (h : md.history.length ≤ maxHistory) :
    (runRaws md raws).history = lastN maxHistory (md.history ++ appendedValues md raws)
    ∧ (runRaws md raws).history.length ≤ maxHistory := by
  have main : ∀ (rl : List Int) (md0 : MetricData), md0.history.length ≤ maxHistory →
      (runRaws md0 rl).history = lastN maxHistory (md0.history ++ appendedValues md0 rl) := by
    intro rl
    induction rl with
    | nil =>
        intro md0 h0
        show md0.history = lastN maxHistory (md0.history ++ [])
        rw [List.append_nil]
        unfold lastN
        have hz : md0.history.length - maxHistory = 0 := by omega
        rw [hz, List.drop_zero]
    | cons r rs ih =>
        intro md0 h0
        have hstep := applyRaw_history md0 r
        have hlen : (applyRaw md0 r).history.length ≤ maxHistory := by
          rw [hstep]
          exact lastN_length_le _ _
        have hrun : runRaws md0 (r :: rs) = runRaws (applyRaw md0 r) rs := rfl
        rw [hrun, ih (applyRaw md0 r) hlen, hstep, lastN_append_absorb, List.append_assoc]
        rfl
  refine ⟨main raws md h, ?_⟩
  rw [main raws md h]
  exact lastN_length_le _ _

/-- Witness for C6 at a concrete input. -/
theorem C6_history_bound_witness :
    (default : MetricData).history.length ≤ maxHistory
    ∧ ((runRaws default [3, 7]).history
        = lastN maxHistory ((default : MetricData).history ++ appendedValues default [3, 7])
      ∧ (runRaws default [3, 7]).history.length ≤ maxHistory) :=
  ⟨by decide, C6_history_bound default [3, 7] (by decide)⟩

/-- The Go map built over the label pairs, as the reversed pair list
(later writes shadow earlier ones under first-match lookup). -/
theorem buildLabelMap_eq (lbls : List LabelPair) :
    buildLabelMap lbls = (lbls.map fun lp => (lp.name, lp.value)).reverse := by
  have aux : ∀ (l : List LabelPair) (acc : List (String × String)),
      l.foldl (fun a lp => (lp.name, lp.value) :: a) acc
        = (l.map fun lp => (lp.name, lp.value)).reverse ++ acc := by
    intro l
    induction l with
    | nil => intro acc; simp
    | cons x xs ih =>
        intro acc
        simp [List.foldl_cons, ih, List.append_assoc]
  have h := aux lbls []
  simpa [buildLabelMap] using h

/-- On an association list with distinct keys, lookup succeeds exactly at
the stored pair. -/
theorem lookupAssoc_mem_iff {β : Type} (al : List (String × β))
    (hnd : (al.map Prod.fst).Nodup) (k : String) (v : β) :
    lookupAssoc al k = some v ↔ (k, v) ∈ al := by
  induction al with
  | nil => simp [lookupAssoc]
  | cons p rest ih =>
      obtain ⟨hp, hrest⟩ := List.nodup_cons.mp hnd
      by_cases hk : p.1 = k
      · subst hk
        constructor
        · intro h
          rw [lookupAssoc, if_pos rfl] at h
          have hv : v = p.2 := by simpa using h.symm
          subst hv
          have hpe : (p.1, p.2) = p := rfl
          rw [hpe]
          exact List.mem_cons_self p rest
        · intro h
          rcases List.mem_cons.mp h with h1 | h1
          · rw [lookupAssoc, if_pos rfl]
            cases p
            simp at h1
            simp [h1]
          · exfalso
            exact hp (List.mem_map.mpr ⟨(p.1, v), h1, rfl⟩)
      · rw [lookupAssoc, if_neg hk, ih hrest]
        constructor
        · intro h
          exact List.mem_cons_of_mem p h
        · intro h
          rcases List.mem_cons.mp h with h1 | h1
          · exfalso
            apply hk
            rw [← h1]
          · exact h1

/-- With distinct label names, the map lookup of `passLabelFilters` finds a
value exactly when the pair is in the label set. -/
theorem lookup_buildLabelMap (lbls : List LabelPair)
    (hnd : (lbls.map LabelPair.name).Nodup) (nm v : String) :
    lookupAssoc (buildLabelMap lbls) nm = some v
      ↔ ({ name := nm, value := v } : LabelPair) ∈ lbls := by
  rw [buildLabelMap_eq, lookupAssoc_mem_iff]
  · rw [List.mem_reverse, List.mem_map]
    constructor
    · rintro ⟨lp, hlp, heq⟩
      obtain ⟨h1, h2⟩ := Prod.mk.injEq .. ▸ heq
      cases lp
      simp at h1 h2
      subst h1
      subst h2
      exact hlp
    · intro h
      exact ⟨{ name := nm, value := v }, h, rfl⟩
  · rw [List.map_reverse, List.map_map, List.nodup_reverse]
    exact hnd

/-- The name filter passes exactly when the include list is empty or some
include substring occurs, and no exclude substring occurs. -/
theorem passNameFilters_iff (includes excludes : List String) (nm : String) :
    passNameFilters includes excludes nm = true
      ↔ ((includes = [] ∨ ∃ inc ∈ includes, strContains nm inc = true)
         ∧ ∀ exc ∈ excludes, strContains nm exc = false) := by
  unfold passNameFilters
  split
  · rename_i h
    rw [Bool.and_eq_true] at h
    obtain ⟨h1, h2⟩ := h
    rw [Bool.not_eq_true', List.any_eq_false] at h2
    constructor
    · intro hfalse
      exact absurd hfalse (by simp)
    · rintro ⟨hinc, -⟩
      exfalso
      rcases hinc with hnil | ⟨i, hi, hci⟩
      · subst hnil
        simp at h1
      · exact absurd hci (by simp [h2 i hi])
  · rename_i h
    rw [Bool.and_eq_true, not_and_or] at h
    split
    · rename_i hexc
      rw [List.any_eq_true] at hexc
      obtain ⟨e, he, hce⟩ := hexc
      constructor
      · intro hfalse
        exact absurd hfalse (by simp)
      · rintro ⟨-, hnone⟩
        exact absurd hce (by simp [hnone e he])
    · rename_i hexc
      rw [List.any_eq_true] at hexc
      push_neg at hexc
      constructor
      · intro _
        constructor
        · rcases h with h1 | h1
          · left
            have hlen : includes.length = 0 := by simpa using h1
            exact List.length_eq_zero.mp hlen
          · right
            have hany : (includes.any fun inc => strContains nm inc) = true := by
              simpa using h1
            rw [List.any_eq_true] at hany
            obtain ⟨i, hi, hci⟩ := hany
            exact ⟨i, hi, hci⟩
        · intro exc hexc2
          have hne := hexc exc hexc2
          simpa using hne
      · intro _
        rfl

/-- The label filter passes exactly when every configured constraint is met
by a label with that exact name and value (given distinct label names). -/
theorem passLabelFilters_iff (lfs : List LabelFilter) (lbls : List LabelPair)
    (hnd : (lbls.map LabelPair.name).Nodup) :
    passLabelFilters lfs lbls = true
      ↔ ∀ lf ∈ lfs, ∃ lp ∈ lbls, lp.name = lf.name ∧ lp.value = lf.value := by
  unfold passLabelFilters
  split
  · rename_i h
    have hnil : lfs = [] := List.length_eq_zero.mp (by simpa using h)
    subst hnil
    simp
  · rw [List.all_eq_true]
    constructor
    · intro hall lf hlf
      have hone := hall lf hlf
      rcases hl : lookupAssoc (buildLabelMap lbls) lf.name with _ | v
      · rw [hl] at hone
        exact absurd hone (by simp)
      · rw [hl] at hone
        have hv : v = lf.value := by simpa using hone
        have hmem := (lookup_buildLabelMap lbls hnd lf.name v).mp hl
        exact ⟨{ name := lf.name, value := v }, hmem, rfl, hv⟩
    · intro hall lf hlf
      obtain ⟨lp, hlp, hn, hv⟩ := hall lf hlf
      have hl : lookupAssoc (buildLabelMap lbls) lf.name = some lp.value := by
        rw [lookup_buildLabelMap lbls hnd]
        have : ({ name := lf.name, value := lp.value } : LabelPair) = lp := by
          cases lp
          simp_all
        rw [this]
        exact hlp
      rw [hl]
      simpa using hv

/-- Claim C7: the filter predicate passes a sample exactly when the include
list is empty or some include substring occurs in the name (OR), no exclude
substring occurs (exclude wins), and every configured label-equality
constraint is matched exactly (AND); with no filters configured everything
passes. Label names are assumed distinct, as in a Prometheus label set. -/
theorem C7_filter_semantics (includes excludes : List String)
    (lfs : List LabelFilter) (nm : String) (lbls : List LabelPair)
    (hnd : (lbls.map LabelPair.name).Nodup) :
    ((passNameFilters includes excludes nm && passLabelFilters lfs lbls) = true
      ↔ ((includes = [] ∨ ∃ inc ∈ includes, strContains nm inc = true)
         ∧ (∀ exc ∈ excludes, strContains nm exc = false)
         ∧ (∀ lf ∈ lfs, ∃ lp ∈ lbls, lp.name = lf.name ∧ lp.value = lf.value)))
    ∧ (includes = [] → excludes = [] → lfs = [] →
        (passNameFilters includes excludes nm && passLabelFilters lfs lbls) = true) := by
  have hiff : (passNameFilters includes excludes nm && passLabelFilters lfs lbls) = true
      ↔ ((includes = [] ∨ ∃ inc ∈ includes, strContains nm inc = true)
         ∧ (∀ exc ∈ excludes, strContains nm exc = false)
         ∧ (∀ lf ∈ lfs, ∃ lp ∈ lbls, lp.name = lf.name ∧ lp.value = lf.value)) := by
    rw [Bool.and_eq_true, passNameFilters_iff, passLabelFilters_iff lfs lbls hnd, and_assoc]
  refine ⟨hiff, ?_⟩
  intro h1 h2 h3
  subst h1
  subst h2
  subst h3
  rw [hiff]
  exact ⟨Or.inl rfl, by simp, by simp⟩

/-- Witness for C7 at a concrete input. -/
theorem C7_filter_semantics_witness :
    (([{ name := "l", value := "v" }] : List LabelPair).map LabelPair.name).Nodup
    ∧ (((passNameFilters ["foo"] ["bar"] "foo"
          && passLabelFilters [{ name := "l", value := "v" }]
               [{ name := "l", value := "v" }]) = true
      ↔ ((["foo"] = ([] : List String)
            ∨ ∃ inc ∈ ["foo"], strContains "foo" inc = true)
         ∧ (∀ exc ∈ ["bar"], strContains "foo" exc = false)
         ∧ (∀ lf ∈ [({ name := "l", value := "v" } : LabelFilter)],
              ∃ lp ∈ [({ name := "l", value := "v" } : LabelPair)],
                lp.name = lf.name ∧ lp.value = lf.value)))) :=
  ⟨by decide,
   (C7_filter_semantics ["foo"] ["bar"] [{ name := "l", value := "v" }] "foo"
      [{ name := "l", value := "v" }] (by decide)).1⟩

/-- Lexicographic character comparison is asymmetric. -/
theorem ltChars_asymm : ∀ as bs : List Char,
    ltChars as bs = true → ltChars bs as = true → False := by
  intro as
  induction as with
  | nil =>
      intro bs h1 h2
      cases bs with
      | nil => simp [ltChars] at h1
      | cons b bs => simp [ltChars] at h2
  | cons a as ih =>
      intro bs h1 h2
      cases bs with
      | nil => simp [ltChars] at h1
      | cons b bs =>
          simp only [ltChars] at h1 h2
          by_cases hab : a < b
          · have hba : ¬ b < a := lt_asymm hab
            simp [hab, hba] at h2
          · by_cases hba : b < a
            · simp [hab, hba] at h1
            · simp [hab, hba] at h1 h2
              exact ih bs h1 h2

/-- Lexicographic character comparison is transitive. -/
theorem ltChars_trans : ∀ as bs cs : List Char,
    ltChars as bs = true → ltChars bs cs = true → ltChars as cs = true := by
  intro as
  induction as with
  | nil =>
      intro bs cs h1 h2
      cases bs with
      | nil => simp [ltChars] at h1
      | cons b bs =>
          cases cs with
          | nil => simp [ltChars] at h2
          | cons c cs => simp [ltChars]
  | cons a as ih =>
      intro bs cs h1 h2
      cases bs with
      | nil => simp [ltChars] at h1
      | cons b bs =>
          cases cs with
          | nil => simp [ltChars] at h2
          | cons c cs =>
              simp only [ltChars] at h1 h2 ⊢
              by_cases hab : a < b
              · by_cases hbc : b < c
                · have hac : a < c := lt_trans hab hbc
                  simp [hac]
                · by_cases hcb : c < b
                  · simp [hbc, hcb] at h2
                  · have hbceq : b = c := le_antisymm (not_lt.mp hcb) (not_lt.mp hbc)
                    subst hbceq
                    simp [hab]
              · by_cases hba : b < a
                · simp [hab, hba] at h1
                · have habeq : a = b := le_antisymm (not_lt.mp hba) (not_lt.mp hab)
                  subst habeq
                  by_cases hac : a < c
                  · simp [hac]
                  · by_cases hca : c < a
                    · simp [hac, hca] at h2
                    · have haceq : a = c := le_antisymm (not_lt.mp hca) (not_lt.mp hac)
                      subst haceq
                      simp [lt_irrefl] at h1 h2 ⊢
                      exact ih bs cs h1 h2

/-- Two character lists neither of which precedes the other are equal. -/
theorem ltChars_connex : ∀ as bs : List Char,
    ltChars as bs = false → ltChars bs as = false → as = bs := by
  intro as
  induction as with
  | nil =>
      intro bs h1 h2
      cases bs with
      | nil => rfl
      | cons b bs => simp [ltChars] at h1
  | cons a as ih =>
      intro bs h1 h2
      cases bs with
      | nil => simp [ltChars] at h2
      | cons b bs =>
          simp only [ltChars] at h1 h2
          by_cases hab : a < b
          · simp [hab] at h1
          · by_cases hba : b < a
            · simp [hab, hba] at h2
            · have habeq : a = b := le_antisymm (not_lt.mp hba) (not_lt.mp hab)
              subst habeq
              simp [lt_irrefl] at h1 h2
              rw [ih bs h1 h2]

/-- `strLt` is asymmetric. -/
theorem strLt_asymm (x y : String) :
    strLt x y = true → strLt y x = true → False :=
  ltChars_asymm x.data y.data

/-- `strLt` is transitive. -/
theorem strLt_trans (x y z : String) :
    strLt x y = true → strLt y z = true → strLt x z = true :=
  ltChars_trans x.data y.data z.data

/-- Two strings neither of which precedes the other are equal. -/
theorem strLt_connex (x y : String) :
    strLt x y = false → strLt y x = false → x = y := by
  intro h1 h2
  have h := ltChars_connex x.data y.data h1 h2
  cases x with
  | mk xd =>
      cases y with
      | mk yd => exact congrArg String.mk h

/-- Counterexample to claim C8 as stated: the two orderings `lA`, `lB` of
the same multiset of label pairs (a duplicated label name) yield different
outputs from `renderLabels`, because the sort compares names only and Go's
small-slice insertion sort keeps the input order of name-ties. -/
theorem C8_multiset_counterexample :
    lA.Perm lB ∧ renderLabels lA ≠ renderLabels lB :=
  ⟨by
    unfold lA lB
    exact List.Perm.swap (LabelPair.mk "a" "1") (LabelPair.mk "a" "2") [],
   by decide⟩

/-- Claim C8 amended: for label sets whose label names are pairwise
distinct (as in a Prometheus label set), key derivation is
order-independent — any two orderings of the same labels yield the same
display string and the same identity key — and the empty label set yields
the empty string for both outputs. -/
theorem C8_order_independent_nodup :
    (∀ l₁ l₂ : List LabelPair, (l₁.map LabelPair.name).Nodup → l₁.Perm l₂ →
        renderLabels l₁ = renderLabels l₂)
    ∧ renderLabels [] = ("", "") := by
  constructor
  · intro l₁ l₂ hnd hperm
    haveI htot : IsTotal LabelPair nameLe := ⟨by
      intro a b
      unfold nameLe
      by_cases h : strLt b.name a.name
      · right
        by_cases h2 : strLt a.name b.name
        · cases strLt_asymm _ _ h2 h
        · simpa using h2
      · left
        simpa using h⟩
    haveI htrans : IsTrans LabelPair nameLe := ⟨by
      intro a b c hab hbc
      unfold nameLe at hab hbc ⊢
      by_cases h : strLt c.name a.name
      · exfalso
        by_cases h1 : strLt a.name b.name
        · have hcb := strLt_trans _ _ _ h h1
          exact absurd hcb (by simp [hbc])
        · have heq : a.name = b.name := strLt_connex _ _ (by simpa using h1) hab
          rw [← heq] at hbc
          exact absurd h (by simp [hbc])
      · simpa using h⟩
    haveI hanti : IsAntisymm LabelPair (fun a b => strLt a.name b.name = true) := ⟨by
      intro a b h1 h2
      cases strLt_asymm _ _ h1 h2⟩
    have strict : ∀ l : List LabelPair, List.Sorted nameLe l →
        ((l.map LabelPair.name).Nodup) →
        List.Sorted (fun a b => strLt a.name b.name = true) l := by
      intro l hs hn
      have hs' : List.Pairwise nameLe l := hs
      have hne : List.Pairwise (fun a b : LabelPair => a.name ≠ b.name) l :=
        List.pairwise_map.mp hn
      have hboth := List.Pairwise.and hs' hne
      exact hboth.imp (by
        intro a b hab
        obtain ⟨h1, h2⟩ := hab
        by_cases h : strLt a.name b.name
        · exact h
        · exact absurd (strLt_connex _ _ (by simpa using h) h1) h2)
    have hs₁ : List.Sorted nameLe (sortLabels l₁) := List.sorted_insertionSort nameLe l₁
    have hs₂ : List.Sorted nameLe (sortLabels l₂) := List.sorted_insertionSort nameLe l₂
    have hp : (sortLabels l₁).Perm (sortLabels l₂) :=
      (List.perm_insertionSort nameLe l₁).trans
        (hperm.trans (List.perm_insertionSort nameLe l₂).symm)
    have hnd₁ : ((sortLabels l₁).map LabelPair.name).Nodup :=
      hnd.perm ((List.perm_insertionSort nameLe l₁).symm.map LabelPair.name)
    have hnd₂ : ((sortLabels l₂).map LabelPair.name).Nodup :=
      (hnd.perm (hperm.map LabelPair.name)).perm
        ((List.perm_insertionSort nameLe l₂).symm.map LabelPair.name)
    have hsort : sortLabels l₁ = sortLabels l₂ :=
      List.eq_of_perm_of_sorted hp (strict _ hs₁ hnd₁) (strict _ hs₂ hnd₂)
    have hemp : l₁.isEmpty = l₂.isEmpty := by
      rcases l₁ with _ | ⟨x, xs⟩ <;> rcases l₂ with _ | ⟨y, ys⟩
      · rfl
      · exact absurd hperm.length_eq (by simp)
      · exact absurd hperm.length_eq (by simp)
      · rfl
    unfold renderLabels
    rw [hsort, hemp]
  · rfl

/-- Witness for the amended C8 at a concrete input. -/
theorem C8_order_independent_nodup_witness :
    (([{ name := "b", value := "2" }, { name := "a", value := "1" }]
        : List LabelPair).map LabelPair.name).Nodup
    ∧ renderLabels [{ name := "b", value := "2" }, { name := "a", value := "1" }]
        = renderLabels [{ name := "a", value := "1" }, { name := "b", value := "2" }] :=
  ⟨by decide,
   C8_order_independent_nodup.1
     [{ name := "b", value := "2" }, { name := "a", value := "1" }]
     [{ name := "a", value := "1" }, { name := "b", value := "2" }]
     (by decide)
     (List.Perm.swap (LabelPair.mk "a" "1") (LabelPair.mk "b" "2") [])⟩

/-- Setting a position to the value it already holds changes nothing. -/
theorem set_of_getElem? {α : Type} : ∀ (l : List α) (i : Nat) (a : α),
    l[i]? = some a → l.set i a = l := by
  intro l
  induction l with
  | nil =>
      intro i a h
      simp at h
  | cons x xs ih =>
      intro i a h
      cases i with
      | zero =>
          simp at h
          simp [List.set, h]
      | succ n =>
          simp at h
          simp [List.set, ih n a h]

/-- An element found by `getElem?` is a member. -/
theorem mem_of_getElem? {α : Type} {l : List α} {i : Nat} {a : α}
    (h : l[i]? = some a) : a ∈ l := by
  obtain ⟨hlt, heq⟩ := List.getElem?_eq_some.mp h
  exact heq ▸ List.getElem_mem hlt

/-- Reading a position whose mapped key is known yields that key. -/
theorem getD_key_of_getElem? (list : List MetricData) (i : Nat) (k : String)
    (h : (list.map MetricData.key)[i]? = some k) :
    (list.getD i default).key = k := by
  rw [List.getElem?_map] at h
  cases hm : list[i]? with
  | none =>
      rw [hm] at h
      simp at h
  | some md =>
      rw [hm] at h
      simp at h
      rw [List.getD_eq_getElem?_getD, hm]
      simpa using h

/-- Overwriting a position with an entry of the same key preserves the key
sequence. -/
theorem map_key_set_self (list : List MetricData) (i : Nat) (md' : MetricData)
    (h : (list.map MetricData.key)[i]? = some md'.key) :
    (list.set i md').map MetricData.key = list.map MetricData.key := by
  rw [List.map_set]
  exact set_of_getElem? _ _ _ h

/-- The counter/gauge field update never changes the series key. -/
theorem applyRawCore_key (md : MetricData) (raw : Int) :
    (applyRawCore md raw).key = md.key := by
  unfold applyRawCore
  dsimp only
  repeat' split
  all_goals rfl

/-- The full per-sample update never changes the series key. -/
theorem applyRaw_key (md : MetricData) (raw : Int) :
    (applyRaw md raw).key = md.key := by
  have h : (applyRaw md raw).key = (applyRawCore md raw).key := rfl
  rw [h, applyRawCore_key]

/-- The empty table and empty index are consistent. -/
theorem consistentIndex_nil : consistentIndex [] [] := by
  intro k i
  simp [lookupAssoc]

/-- Consistency only depends on the key sequence. -/
theorem consistentIndex_congr {list₁ list₂ : List MetricData}
    {index : List (String × Nat)}
    (h : list₁.map MetricData.key = list₂.map MetricData.key)
    (hc : consistentIndex list₁ index) : consistentIndex list₂ index := by
  intro k i
  rw [← h]
  exact hc k i

/-- A consistent table has pairwise-distinct keys. -/
theorem consistentIndex_nodup (list : List MetricData) (index : List (String × Nat))
    (h : consistentIndex list index) : (list.map MetricData.key).Nodup := by
  rw [List.nodup_iff_injective_get]
  intro a b hab
  have ha : (list.map MetricData.key)[a.1]? = some ((list.map MetricData.key).get a) := by
    rw [List.getElem?_eq_getElem a.2]
    rfl
  have hb : (list.map MetricData.key)[b.1]? = some ((list.map MetricData.key).get a) := by
    rw [List.getElem?_eq_getElem b.2, hab]
    rfl
  have h1 := (h _ a.1).mpr ha
  have h2 := (h _ b.1).mpr hb
  rw [h1] at h2
  have : a.1 = b.1 := by simpa using h2
  exact Fin.ext this

/-- Appending a fresh entry at the end and recording its position keeps the
table and index consistent. -/
theorem consistent_snoc {list : List MetricData} {index : List (String × Nat)}
    {md : MetricData}
    (hcons : consistentIndex list index)
    (hnone : lookupAssoc index md.key = none) :
    consistentIndex (list ++ [md]) ((md.key, list.length) :: index) := by
  have hkeys : (list ++ [md]).map MetricData.key
      = list.map MetricData.key ++ [md.key] := by
    rw [List.map_append]
    rfl
  have hat : (list.map MetricData.key ++ [md.key])[list.length]? = some md.key := by
    have h0 := List.getElem?_concat_length (list.map MetricData.key) md.key
    rwa [List.length_map] at h0
  intro k i
  rw [hkeys]
  show (if md.key = k then some list.length else lookupAssoc index k) = some i ↔ _
  by_cases hk : md.key = k
  · subst hk
    rw [if_pos rfl]
    constructor
    · intro h
      have hi : i = list.length := by simpa using h.symm
      subst hi
      exact hat
    · intro h
      by_cases hi : i < list.length
      · exfalso
        rw [List.getElem?_append_left (by rw [List.length_map]; exact hi)] at h
        have hsome := (hcons md.key i).mpr h
        rw [hnone] at hsome
        cases hsome
      · by_cases hieq : i = list.length
        · rw [hieq]
        · exfalso
          have hlen : ((list.map MetricData.key) ++ [md.key]).length ≤ i := by
            rw [List.length_append, List.length_map]
            simp only [List.length_cons, List.length_nil]
            omega
          rw [List.getElem?_eq_none hlen] at h
          cases h
  · rw [if_neg hk]
    rw [hcons k i]
    by_cases hi : i < list.length
    · rw [List.getElem?_append_left (by rw [List.length_map]; exact hi)]
    · have h1 : (list.map MetricData.key)[i]? = none :=
        List.getElem?_eq_none (by rw [List.length_map]; omega)
      rw [h1]
      by_cases hieq : i = list.length
      · subst hieq
        rw [hat]
        constructor
        · intro hfalse
          cases hfalse
        · intro heq
          exfalso
          apply hk
          simpa using heq
      · have h2 : ((list.map MetricData.key) ++ [md.key])[i]? = none := by
          apply List.getElem?_eq_none
          rw [List.length_append, List.length_map]
          simp only [List.length_cons, List.length_nil]
          omega
        rw [h2]

/-- A freshly created series entry carries the requested key. -/
theorem newSeriesData_key (key name labels : String) (isCounter : Bool) (raw : Int) :
    (newSeriesData key name labels isCounter raw).key = key := by
  unfold newSeriesData
  dsimp only
  split
  · rfl
  · rfl

/-- A sample failing either filter leaves the state and `seen` untouched. -/
theorem processSample_skip (s : CoreState) (seen : List String)
    (mf : MetricFamily) (pm : Metric)
    (h : (passNameFilters s.includes s.excludes mf.name
          && passLabelFilters s.labelFilters pm.label) = false) :
    processSample s seen mf pm = (s, seen) := by
  unfold processSample
  by_cases h1 : passNameFilters s.includes s.excludes mf.name
  · have h2 : passLabelFilters s.labelFilters pm.label = false := by
      rcases Bool.and_eq_false_iff.mp h with hx | hx
      · rw [h1] at hx
        cases hx
      · exact hx
    simp [h1, h2]
  · have h1' : passNameFilters s.includes s.excludes mf.name = false := by
      simpa using h1
    simp [h1']

/-- A sample passing the filters whose key is already in the index updates
the entry in place and records the key as seen. -/
theorem processSample_found (s : CoreState) (seen : List String)
    (mf : MetricFamily) (pm : Metric) (idx : Nat)
    (h1 : passNameFilters s.includes s.excludes mf.name = true)
    (h2 : passLabelFilters s.labelFilters pm.label = true)
    (hidx : lookupAssoc s.metricsIndex (sampleKey mf.name pm) = some idx) :
    processSample s seen mf pm =
      ({ s with metricsList := (s.metricsList.set idx
            (applyRaw (s.metricsList.getD idx default) (getRawValue mf pm))) },
       sampleKey mf.name pm :: seen) := by
  unfold processSample
  unfold sampleKey at hidx
  simp only [h1, h2, Bool.not_true, Bool.false_eq_true, if_false, hidx]
  rfl

/-- A sample passing the filters whose key is absent appends a fresh entry,
records its position, applies the per-sample update to it, and records the
key as seen. -/
theorem processSample_new (s : CoreState) (seen : List String)
    (mf : MetricFamily) (pm : Metric)
    (h1 : passNameFilters s.includes s.excludes mf.name = true)
    (h2 : passLabelFilters s.labelFilters pm.label = true)
    (hidx : lookupAssoc s.metricsIndex (sampleKey mf.name pm) = none) :
    processSample s seen mf pm =
      (let key := sampleKey mf.name pm
       let raw := getRawValue mf pm
       let md1 := newSeriesData key mf.name (renderLabels pm.label).1
          (mf.mtype == MetricType.counter) raw
       let newList := s.metricsList ++ [md1]
       let idx := newList.length - 1
       let s1 : CoreState :=
        { s with metricsList := newList, metricsIndex := (key, idx) :: s.metricsIndex }
       ({ s1 with metricsList :=
            s1.metricsList.set idx (applyRaw (s1.metricsList.getD idx default) raw) },
        key :: seen)) := by
  unfold processSample
  unfold sampleKey at hidx
  simp only [h1, h2, Bool.not_true, Bool.false_eq_true, if_false, hidx]
  rfl

/-- `processSample` never changes the filter configuration. -/
theorem processSample_config (s : CoreState) (seen : List String)
    (mf : MetricFamily) (pm : Metric) :
    (processSample s seen mf pm).1.includes = s.includes
    ∧ (processSample s seen mf pm).1.excludes = s.excludes
    ∧ (processSample s seen mf pm).1.labelFilters = s.labelFilters := by
  unfold processSample
  dsimp only
  repeat' split
  all_goals exact ⟨rfl, rfl, rfl⟩

/-- The `seen` output of `processSample`: the sample's key is prepended
exactly when the sample passes the filters. -/
theorem processSample_seen (s : CoreState) (seen : List String)
    (mf : MetricFamily) (pm : Metric) :
    (processSample s seen mf pm).2 =
      (if (passNameFilters s.includes s.excludes mf.name
            && passLabelFilters s.labelFilters pm.label) = true
       then sampleKey mf.name pm :: seen else seen) := by
  by_cases hp : (passNameFilters s.includes s.excludes mf.name
      && passLabelFilters s.labelFilters pm.label) = true
  · rw [if_pos hp]
    have hp' : passNameFilters s.includes s.excludes mf.name = true
        ∧ passLabelFilters s.labelFilters pm.label = true := by
      simpa using hp
    obtain ⟨h1, h2⟩ := hp'
    cases hidx : lookupAssoc s.metricsIndex (sampleKey mf.name pm) with
    | none => rw [processSample_new s seen mf pm h1 h2 hidx]
    | some idx => rw [processSample_found s seen mf pm idx h1 h2 hidx]
  · rw [if_neg hp]
    rw [processSample_skip s seen mf pm (by simpa using hp)]

/-- One `processSample` step preserves the reconciliation-pass invariant. -/
theorem processSample_inv (base : CoreState) (s : CoreState) (seen : List String)
    (mf : MetricFamily) (pm : Metric)
    (h : StateInv base (s, seen)) :
    StateInv base (processSample s seen mf pm) := by
  unfold StateInv at h ⊢
  obtain ⟨hinc, hexc, hlf, hcons, ⟨t, hkeys, hts⟩, hsub⟩ := h
  by_cases hp : (passNameFilters s.includes s.excludes mf.name
      && passLabelFilters s.labelFilters pm.label) = true
  · have hp' : passNameFilters s.includes s.excludes mf.name = true
        ∧ passLabelFilters s.labelFilters pm.label = true := by
      simpa using hp
    obtain ⟨h1, h2⟩ := hp'
    cases hidx : lookupAssoc s.metricsIndex (sampleKey mf.name pm) with
    | some idx =>
        rw [processSample_found s seen mf pm idx h1 h2 hidx]
        dsimp only
        have hkey_at : (s.metricsList.map MetricData.key)[idx]? = some (sampleKey mf.name pm) :=
          (hcons _ idx).mp hidx
        have hgetD : (s.metricsList.getD idx default).key = sampleKey mf.name pm :=
          getD_key_of_getElem? _ _ _ hkey_at
        have hsetkeys :
            ((s.metricsList.set idx
              (applyRaw (s.metricsList.getD idx default) (getRawValue mf pm))).map
                MetricData.key)
              = s.metricsList.map MetricData.key := by
          apply map_key_set_self
          rw [applyRaw_key, hgetD]
          exact hkey_at
        refine ⟨hinc, hexc, hlf, ?_, ?_, ?_⟩
        · exact consistentIndex_congr hsetkeys.symm hcons
        · refine ⟨t, ?_, ?_⟩
          · rw [hsetkeys]
            exact hkeys
          · intro k hk
            exact List.mem_cons_of_mem _ (hts k hk)
        · intro k hk
          rw [hsetkeys]
          rcases List.mem_cons.mp hk with heq | hk2
          · subst heq
            exact mem_of_getElem? hkey_at
          · exact hsub k hk2
    | none =>
        rw [processSample_new s seen mf pm h1 h2 hidx]
        dsimp only
        set key0 := sampleKey mf.name pm with hkey0
        set raw0 := getRawValue mf pm with hraw0
        set md1 := newSeriesData key0 mf.name (renderLabels pm.label).1
          (mf.mtype == MetricType.counter) raw0 with hmd1
        have hmd1key : md1.key = key0 := by
          rw [hmd1]
          exact newSeriesData_key _ _ _ _ _
        have hlen1 : (s.metricsList ++ [md1]).length - 1 = s.metricsList.length := by
          rw [List.length_append]
          simp
        rw [hlen1]
        have hkeysL1 : (s.metricsList ++ [md1]).map MetricData.key
            = s.metricsList.map MetricData.key ++ [key0] := by
          rw [List.map_append]
          simp [hmd1key]
        have hkey_at : ((s.metricsList ++ [md1]).map MetricData.key)[s.metricsList.length]?
            = some key0 := by
          rw [hkeysL1]
          have h0 := List.getElem?_concat_length (s.metricsList.map MetricData.key) key0
          rwa [List.length_map] at h0
        have hsetkeys :
            (((s.metricsList ++ [md1]).set s.metricsList.length
              (applyRaw ((s.metricsList ++ [md1]).getD s.metricsList.length default) raw0)).map
                MetricData.key)
              = (s.metricsList ++ [md1]).map MetricData.key := by
          apply map_key_set_self
          rw [applyRaw_key, getD_key_of_getElem? _ _ _ hkey_at]
          exact hkey_at
        refine ⟨hinc, hexc, hlf, ?_, ?_, ?_⟩
        · apply consistentIndex_congr hsetkeys.symm
          have hsnoc := consistent_snoc hcons
            (show lookupAssoc s.metricsIndex md1.key = none from by
              rw [hmd1key]; exact hidx)
          rw [hmd1key] at hsnoc
          exact hsnoc
        · refine ⟨t ++ [key0], ?_, ?_⟩
          · rw [hsetkeys, hkeysL1, hkeys, List.append_assoc]
          · intro k hk
            rcases List.mem_append.mp hk with hk1 | hk1
            · exact List.mem_cons_of_mem _ (hts k hk1)
            · have heq : k = key0 := by simpa using hk1
              subst heq
              exact List.mem_cons_self _ _
        · intro k hk
          rw [hsetkeys, hkeysL1]
          rcases List.mem_cons.mp hk with heq | hk2
          · subst heq
            exact List.mem_append.mpr (Or.inr (by simp))
          · exact List.mem_append.mpr (Or.inl (hsub k hk2))
  · rw [processSample_skip s seen mf pm (by simpa using hp)]
    exact ⟨hinc, hexc, hlf, hcons, ⟨t, hkeys, hts⟩, hsub⟩

/-- The inner loop over a family's instances preserves the invariant. -/
theorem foldlMetrics_inv (base : CoreState) (mf : MetricFamily) :
    ∀ (pms : List Metric) (a : CoreState × List String), StateInv base a →
    StateInv base (pms.foldl (fun a pm => processSample a.1 a.2 mf pm) a) := by
  intro pms
  induction pms with
  | nil =>
      intro a h
      exact h
  | cons pm pms ih =>
      intro a h
      rw [List.foldl_cons]
      exact ih _ (processSample_inv base a.1 a.2 mf pm h)

/-- The outer loop over the batch preserves the invariant. -/
theorem runFamilies_inv (base : CoreState) :
    ∀ (fams : List MetricFamily) (a : CoreState × List String), StateInv base a →
    StateInv base (runFamilies fams a) := by
  intro fams
  induction fams with
  | nil =>
      intro a h
      exact h
  | cons mf fams ih =>
      intro a h
      have hstep : runFamilies (mf :: fams) a = runFamilies fams (runMetrics mf a) := rfl
      rw [hstep]
      exact ih _ (foldlMetrics_inv base mf mf.metric a h)

/-- The inner loop never changes the filter configuration. -/
theorem foldlMetrics_config (mf : MetricFamily) :
    ∀ (pms : List Metric) (a : CoreState × List String),
    (pms.foldl (fun a pm => processSample a.1 a.2 mf pm) a).1.includes = a.1.includes
    ∧ (pms.foldl (fun a pm => processSample a.1 a.2 mf pm) a).1.excludes = a.1.excludes
    ∧ (pms.foldl (fun a pm => processSample a.1 a.2 mf pm) a).1.labelFilters
        = a.1.labelFilters := by
  intro pms
  induction pms with
  | nil =>
      intro a
      exact ⟨rfl, rfl, rfl⟩
  | cons pm pms ih =>
      intro a
      rw [List.foldl_cons]
      have hstep := processSample_config a.1 a.2 mf pm
      have hrest := ih (processSample a.1 a.2 mf pm)
      exact ⟨hrest.1.trans hstep.1, hrest.2.1.trans hstep.2.1, hrest.2.2.trans hstep.2.2⟩

/-- The `seen` output of the inner loop: the keys of this family's samples
that pass the filters, most recent first, over the incoming `seen`. -/
theorem foldlMetrics_seen (mf : MetricFamily) (inc exc : List String)
    (lfs : List LabelFilter) :
    ∀ (pms : List Metric) (a : CoreState × List String),
    a.1.includes = inc → a.1.excludes = exc → a.1.labelFilters = lfs →
    (pms.foldl (fun a pm => processSample a.1 a.2 mf pm) a).2
      = ((pms.filter fun pm => passNameFilters inc exc mf.name
            && passLabelFilters lfs pm.label).map fun pm => sampleKey mf.name pm).reverse
        ++ a.2 := by
  intro pms
  induction pms with
  | nil =>
      intro a h1 h2 h3
      simp
  | cons pm pms ih =>
      intro a h1 h2 h3
      rw [List.foldl_cons]
      have hc := processSample_config a.1 a.2 mf pm
      rw [ih (processSample a.1 a.2 mf pm) (hc.1.trans h1) (hc.2.1.trans h2)
        (hc.2.2.trans h3)]
      rw [processSample_seen a.1 a.2 mf pm, h1, h2, h3]
      by_cases hp : (passNameFilters inc exc mf.name
          && passLabelFilters lfs pm.label) = true
      · rw [if_pos hp,
          @List.filter_cons_of_pos _
            (fun pm => passNameFilters inc exc mf.name && passLabelFilters lfs pm.label)
            pm pms hp]
        simp [List.append_assoc]
      · rw [if_neg hp,
          @List.filter_cons_of_neg _
            (fun pm => passNameFilters inc exc mf.name && passLabelFilters lfs pm.label)
            pm pms hp]

/-- The outer loop never changes the filter configuration. -/
theorem runFamilies_config :
    ∀ (fams : List MetricFamily) (a : CoreState × List String),
    (runFamilies fams a).1.includes = a.1.includes
    ∧ (runFamilies fams a).1.excludes = a.1.excludes
    ∧ (runFamilies fams a).1.labelFilters = a.1.labelFilters := by
  intro fams
  induction fams with
  | nil =>
      intro a
      exact ⟨rfl, rfl, rfl⟩
  | cons mf fams ih =>
      intro a
      have hstep : runFamilies (mf :: fams) a = runFamilies fams (runMetrics mf a) := rfl
      rw [hstep]
      have h1 := foldlMetrics_config mf mf.metric a
      have h2 := ih (runMetrics mf a)
      exact ⟨h2.1.trans h1.1, h2.2.1.trans h1.2.1, h2.2.2.trans h1.2.2⟩

/-- The `seen` set of a whole pass: exactly the touched keys (reversed)
over the incoming `seen`. -/
theorem runFamilies_seen (inc exc : List String) (lfs : List LabelFilter) :
    ∀ (fams : List MetricFamily) (a : CoreState × List String),
    a.1.includes = inc → a.1.excludes = exc → a.1.labelFilters = lfs →
    (runFamilies fams a).2 = (touchedKeys inc exc lfs fams).reverse ++ a.2 := by
  intro fams
  induction fams with
  | nil =>
      intro a h1 h2 h3
      simp [runFamilies, touchedKeys]
  | cons mf fams ih =>
      intro a h1 h2 h3
      have hstep : runFamilies (mf :: fams) a = runFamilies fams (runMetrics mf a) := rfl
      have hc := foldlMetrics_config mf mf.metric a
      rw [hstep, ih (runMetrics mf a) (hc.1.trans h1) (hc.2.1.trans h2) (hc.2.2.trans h3)]
      have hm : (runMetrics mf a).2
          = ((mf.metric.filter fun pm => passNameFilters inc exc mf.name
                && passLabelFilters lfs pm.label).map fun pm => sampleKey mf.name pm).reverse
            ++ a.2 :=
        foldlMetrics_seen mf inc exc lfs mf.metric a h1 h2 h3
      rw [hm]
      unfold touchedKeys
      rw [List.flatMap_cons, List.reverse_append, List.append_assoc]

/-- The kept entries of the staleness rebuild, with the accumulator made
explicit. -/
theorem rebuild_fst_aux (seen : List String) :
    ∀ (l : List MetricData) (acc : List MetricData × List (String × Nat)),
    (l.foldl (fun acc md =>
        if md.key ∈ seen then (acc.1 ++ [md], (md.key, acc.1.length) :: acc.2) else acc)
      acc).1
      = acc.1 ++ l.filter (fun md => decide (md.key ∈ seen)) := by
  intro l
  induction l with
  | nil =>
      intro acc
      simp
  | cons md rest ih =>
      intro acc
      rw [List.foldl_cons]
      by_cases h : md.key ∈ seen
      · rw [if_pos h, ih,
          @List.filter_cons_of_pos _ (fun md => decide (md.key ∈ seen)) md rest
            (decide_eq_true h)]
        simp [List.append_assoc]
      · rw [if_neg h, ih,
          @List.filter_cons_of_neg _ (fun md => decide (md.key ∈ seen)) md rest
            (by simpa using h)]

/-- The staleness rebuild keeps exactly the entries whose key was seen, in
their previous relative order. -/
theorem rebuild_fst (list : List MetricData) (seen : List String) :
    (rebuild list seen).1 = list.filter (fun md => decide (md.key ∈ seen)) := by
  unfold rebuild
  rw [rebuild_fst_aux]
  simp

/-- The staleness rebuild produces a consistent index, with the
accumulator made explicit. -/
theorem rebuild_consistent_aux (seen : List String) :
    ∀ (l : List MetricData) (acc : List MetricData × List (String × Nat)),
    consistentIndex acc.1 acc.2 →
    (∀ md ∈ l, ¬ md.key ∈ acc.1.map MetricData.key) →
    ((l.map MetricData.key).Nodup) →
    consistentIndex
      (l.foldl (fun acc md =>
          if md.key ∈ seen then (acc.1 ++ [md], (md.key, acc.1.length) :: acc.2) else acc)
        acc).1
      (l.foldl (fun acc md =>
          if md.key ∈ seen then (acc.1 ++ [md], (md.key, acc.1.length) :: acc.2) else acc)
        acc).2 := by
  intro l
  induction l with
  | nil =>
      intro acc hc _ _
      exact hc
  | cons md rest ih =>
      intro acc hc hdis hnd
      rw [List.map_cons] at hnd
      obtain ⟨hhd, hnd'⟩ := List.nodup_cons.mp hnd
      rw [List.foldl_cons]
      by_cases h : md.key ∈ seen
      · rw [if_pos h]
        apply ih
        · dsimp only
          have hnone : lookupAssoc acc.2 md.key = none := by
            cases hl : lookupAssoc acc.2 md.key with
            | none => rfl
            | some i =>
                exfalso
                have hx := (hc md.key i).mp hl
                exact (hdis md (List.mem_cons_self _ _)) (mem_of_getElem? hx)
          exact consistent_snoc hc hnone
        · intro md' hmd'
          dsimp only
          rw [List.map_append]
          intro hmem
          rcases List.mem_append.mp hmem with h1 | h1
          · exact (hdis md' (List.mem_cons_of_mem _ hmd')) h1
          · have heq : md'.key = md.key := by simpa using h1
            apply hhd
            rw [← heq]
            exact List.mem_map.mpr ⟨md', hmd', rfl⟩
        · exact hnd'
      · rw [if_neg h]
        exact ih acc hc (fun md' hmd' => hdis md' (List.mem_cons_of_mem _ hmd')) hnd'

/-- The staleness rebuild of a table with distinct keys produces a list and
index that are mutually consistent. -/
theorem rebuild_consistent (list : List MetricData) (seen : List String)
    (hnd : (list.map MetricData.key).Nodup) :
    consistentIndex (rebuild list seen).1 (rebuild list seen).2 := by
  unfold rebuild
  apply rebuild_consistent_aux seen list ([], [])
  · exact consistentIndex_nil
  · intro md hmd
    simp
  · exact hnd

/-- Filtering by a key predicate commutes with projecting the keys. -/
theorem map_key_filter_mem (l : List MetricData) (seen : List String) :
    (l.filter fun md => decide (md.key ∈ seen)).map MetricData.key
      = (l.map MetricData.key).filter (fun k => decide (k ∈ seen)) := by
  induction l with
  | nil => rfl
  | cons md rest ih =>
      by_cases h : md.key ∈ seen
      · rw [@List.filter_cons_of_pos _ (fun md => decide (md.key ∈ seen)) md rest
            (decide_eq_true h),
          List.map_cons, List.map_cons,
          @List.filter_cons_of_pos _ (fun k => decide (k ∈ seen)) md.key
            (rest.map MetricData.key) (decide_eq_true h),
          ih]
      · rw [@List.filter_cons_of_neg _ (fun md => decide (md.key ∈ seen)) md rest
            (by simpa using h),
          List.map_cons,
          @List.filter_cons_of_neg _ (fun k => decide (k ∈ seen)) md.key
            (rest.map MetricData.key) (by simpa using h),
          ih]

/-- Claim C5: after a reconciliation pass over a batch (starting from a
table whose index is consistent), a series is present exactly when its key
was produced by some sample of the batch that passed the filters; the
surviving old entries keep their relative order and precede the new ones;
the list and the key→index map are mutually consistent (every key maps to
exactly the position carrying it); and the table holds no two entries with
the same SeriesKey. -/
theorem C5_reconciliation_invariants (m : Model) (fams : List MetricFamily)
    (h : consistentIndex m.metricsList m.metricsIndex) :
    (∀ k, k ∈ (updateMetrics m fams).metricsList.map MetricData.key
        ↔ k ∈ touchedKeys m.includes m.excludes m.labelFilters fams)
    ∧ (∃ t, ((m.metricsList.map MetricData.key).filter
          (fun k => decide (k ∈ touchedKeys m.includes m.excludes m.labelFilters fams))) ++ t
        = (updateMetrics m fams).metricsList.map MetricData.key)
    ∧ consistentIndex (updateMetrics m fams).metricsList (updateMetrics m fams).metricsIndex
    ∧ ((updateMetrics m fams).metricsList.map MetricData.key).Nodup := by
  have hinv : StateInv m.core (runFamilies fams (m.core, [])) := by
    apply runFamilies_inv
    exact ⟨rfl, rfl, rfl, h, ⟨[], by simp, by simp⟩, by simp⟩
  obtain ⟨hc1, hc2, hc3, hcons, ⟨t, hkeys, hts⟩, hsubs⟩ := hinv
  have hcore : (Model.core m).metricsList = m.metricsList := rfl
  rw [hcore] at hkeys
  have hseen0 := runFamilies_seen m.includes m.excludes m.labelFilters fams
    (m.core, []) rfl rfl rfl
  have hseen : ∀ k, k ∈ (runFamilies fams (m.core, [])).2
      ↔ k ∈ touchedKeys m.includes m.excludes m.labelFilters fams := by
    intro k
    rw [hseen0]
    simp
  have e2 : (updateMetrics m fams).metricsList
      = (rebuild (runFamilies fams (m.core, [])).1.metricsList
          (runFamilies fams (m.core, [])).2).1 := rfl
  have e3 : (updateMetrics m fams).metricsIndex
      = (rebuild (runFamilies fams (m.core, [])).1.metricsList
          (runFamilies fams (m.core, [])).2).2 := rfl
  have hfkeys : (updateMetrics m fams).metricsList.map MetricData.key
      = ((runFamilies fams (m.core, [])).1.metricsList.map MetricData.key).filter
          (fun k => decide (k ∈ (runFamilies fams (m.core, [])).2)) := by
    rw [e2, rebuild_fst, map_key_filter_mem]
  have hfin : consistentIndex (updateMetrics m fams).metricsList
      (updateMetrics m fams).metricsIndex := by
    rw [e2, e3]
    exact rebuild_consistent _ _ (consistentIndex_nodup _ _ hcons)
  refine ⟨?_, ?_, hfin, consistentIndex_nodup _ _ hfin⟩
  · intro k
    rw [hfkeys, List.mem_filter]
    constructor
    · rintro ⟨hmem, hdec⟩
      exact (hseen k).mp (of_decide_eq_true hdec)
    · intro hk
      have hk2 : k ∈ (runFamilies fams (m.core, [])).2 := (hseen k).mpr hk
      exact ⟨hsubs k hk2, decide_eq_true hk2⟩
  · refine ⟨t.filter (fun k => decide (k ∈ (runFamilies fams (m.core, [])).2)), ?_⟩
    have e1 : (m.metricsList.map MetricData.key).filter
          (fun k => decide (k ∈ touchedKeys m.includes m.excludes m.labelFilters fams))
        = (m.metricsList.map MetricData.key).filter
          (fun k => decide (k ∈ (runFamilies fams (m.core, [])).2)) := by
      apply List.filter_congr
      intro x _
      exact decide_eq_decide.mpr (hseen x).symm
    rw [e1, hfkeys, hkeys, List.filter_append]

/-- Witness for C5 at a concrete input. -/
theorem C5_reconciliation_invariants_witness :
    consistentIndex ({} : Model).metricsList ({} : Model).metricsIndex
    ∧ ((∀ k, k ∈ (updateMetrics {} [counterFamC "c" 1]).metricsList.map MetricData.key
          ↔ k ∈ touchedKeys ({} : Model).includes ({} : Model).excludes
              ({} : Model).labelFilters [counterFamC "c" 1])
      ∧ (∃ t, ((({} : Model).metricsList.map MetricData.key).filter
            (fun k => decide (k ∈ touchedKeys ({} : Model).includes ({} : Model).excludes
                ({} : Model).labelFilters [counterFamC "c" 1]))) ++ t
          = (updateMetrics {} [counterFamC "c" 1]).metricsList.map MetricData.key)
      ∧ consistentIndex (updateMetrics {} [counterFamC "c" 1]).metricsList
          (updateMetrics {} [counterFamC "c" 1]).metricsIndex
      ∧ ((updateMetrics {} [counterFamC "c" 1]).metricsList.map MetricData.key).Nodup) :=
  ⟨by intro k i; simp [lookupAssoc],
   C5_reconciliation_invariants {} [counterFamC "c" 1] (by intro k i; simp [lookupAssoc])⟩

end Met
